import Mathlib

/-!
Shallow embedding of the expense-recording core of `src/bot.py`
(`to_int`, `ExpenseBot.parse_expense_message`, `ExpenseBot.add_expense_to_sheet`,
`ExpenseBot.update_monthly_summary`, `ExpenseBot.get_today_summary`,
`ExpenseBot.get_monthly_summary`), together with proofs about the claims of
the natural-language specification.

Conventions of the embedding:
* Spreadsheet cell values read back with `value_render_option='UNFORMATTED_VALUE'`
  are heterogeneous Python values (int, float, bool, None, str); they are
  modelled by the inductive type `PyVal`.  Python floats are idealized as
  rationals (`Rat`); `int(float)` truncation toward zero is exact on rationals.
* Python strings are modelled by `String`, manipulated through their `.data`
  character lists.  Character-class tests (`\w`, `\d`, `\s`, `.lower()`,
  `.title()`) are modelled at the ASCII level, which is the alphabet the
  program's category names, dates and amounts actually use.
* Python dicts keyed by strings (`monthly_data`, `categories_today`) are
  modelled as insertion-ordered association lists `List (String × Int)`.
-/

/-- A Python runtime value as it can appear in a spreadsheet cell read back
from the sink.  Floats are idealized as rationals. -/
inductive PyVal where
  | vInt (n : Int)
  | vFloat (q : Rat)
  | vBool (b : Bool)
  | vNone
  | vStr (s : String)
deriving DecidableEq, Repr

/-- Python `str()` of an (idealized) float.  Integral floats render exactly as
Python does (`"3.0"`, `"0.0"`); non-integral rationals are given a fixed
num/den rendering.  The claims below depend only on the rendering of `0.0`
(length 3) and on the rendering being some fixed string. -/
def pyStrFloat (q : Rat) : String :=
  if q.den = 1 then toString q.num ++ ".0" else toString q.num ++ "/" ++ toString q.den

/-- Python `str(value)` for the cell values of the model. -/
def pyStr : PyVal → String
  | .vInt n => toString n
  | .vFloat q => pyStrFloat q
  | .vBool true => "True"
  | .vBool false => "False"
  | .vNone => "None"
  | .vStr s => s

/-- Python truthiness (`if not raw_date: ...`) for the cell values of the model. -/
def pyTruthy : PyVal → Bool
  | .vInt n => if n = 0 then false else true
  | .vFloat q => if q = 0 then false else true
  | .vBool b => b
  | .vNone => false
  | .vStr s => if s = "" then false else true

/-- Python `==` between a cell value and a string literal: only equal-valued
strings compare equal; values of other types never equal a `str`. -/
def pyEqStr (v : PyVal) (s : String) : Bool :=
  match v with
  | .vStr t => t == s
  | _ => false

/-- `c` is one of the whitespace characters of the model (Python `\s` / `strip`,
restricted to the ASCII whitespace the program encounters). -/
def wsChar (c : Char) : Bool := c.isWhitespace

/-- Python `str.strip()`: drop leading and trailing whitespace, on character lists. -/
def pyStrip (l : List Char) : List Char :=
  ((l.dropWhile wsChar).reverse.dropWhile wsChar).reverse

/-- `re.sub(r'[^0-9\-]', '', s)` from `to_int`: keep only decimal digits and
minus signs. -/
def cleanAmount (s : String) : String :=
  String.mk (s.data.filter (fun c => c.isDigit || c = '-'))

/-- The numeric value of a list of decimal digits (Python `int` on a digit
string; leading zeros are allowed). -/
def natOfDigits (l : List Char) : Nat :=
  l.foldl (fun n c => 10 * n + (c.toNat - 48)) 0

/-- Python `int(s)` on a string drawn from the alphabet `{0-9, '-'}` (the only
strings `to_int` ever passes to `int`): an optional single leading minus sign
followed by at least one digit; anything else raises `ValueError`, modelled
as `none`. -/
def pyParseInt (l : List Char) : Option Int :=
  match l with
  | [] => none
  | '-' :: rest =>
      if rest ≠ [] ∧ ∀ c ∈ rest, c.isDigit then some (-(natOfDigits rest : Int)) else none
  | _ =>
      if ∀ c ∈ l, c.isDigit then some ((natOfDigits l : Int)) else none

/-- The string branch of `to_int` (`bot.py` lines 58-66):
`s = str(value).strip()`, strip non-digit non-minus characters, return 0 for
`''`/`'-'`, otherwise `int(s)` with `ValueError` degrading to 0. -/
def strPathToInt (s : String) : Int :=
  let t := cleanAmount (String.mk (pyStrip s.data))
  if t = "" ∨ t = "-" then 0
  else
    match pyParseInt t.data with
    | some n => n
    | none => 0

/-- `to_int` (`bot.py` lines 52-66).  The numeric fast path
`isinstance(value, (int, float)) and not isinstance(value, bool)` covers
`vInt` and `vFloat` only; `None` returns 0; booleans and strings take the
string branch. -/
def to_int (v : PyVal) : Int :=
  match v with
  | .vInt n => n
  | .vFloat q => q.num.tdiv (q.den : Int)
  | .vNone => 0
  | .vBool b => strPathToInt (pyStr (.vBool b))
  | .vStr s => strPathToInt s

/-- Python `\w` (ASCII fragment): letters, digits and underscore. -/
def wordChar (c : Char) : Bool := c.isAlphanum || c = '_'

/-- Python `str.lower()` (ASCII case mapping), on character lists via
`Char.toLower`. -/
def pyLower (s : String) : String := String.mk (s.data.map Char.toLower)

/-- Helper for Python `str.title()`: the boolean argument records whether the
previous character was cased (alphabetic); the first letter of every alphabetic
run is upper-cased and the following letters are lower-cased; non-alphabetic
characters pass through and reset the run. -/
def pyTitleAux : Bool → List Char → List Char
  | _, [] => []
  | prevCased, c :: rest =>
      if c.isAlpha then
        (if prevCased then c.toLower else c.toUpper) :: pyTitleAux true rest
      else
        c :: pyTitleAux false rest

/-- Python `str.title()` (ASCII fragment), used by `add_expense_to_sheet` as
`kategori.title()`. -/
def pyTitle (s : String) : String := String.mk (pyTitleAux false s.data)

/-- Python `s.startswith(pre)`. -/
def pyStartsWith (s pre : String) : Bool := pre.data.isPrefixOf s.data

/-!
`parse_expense_message` (`bot.py` lines 258-271) matches
`re.match(r'^(\w+)\s+(\d+)\s+(.+)$', message_text.strip(), re.IGNORECASE)`.
On the stripped text the backtracking regex has exactly one possible
decomposition, computed by maximal munch:
* `(\w+)` is followed by `\s+`, and word characters and whitespace are
  disjoint, so group 1 is the maximal leading run of word characters and the
  character after it must be whitespace;
* likewise `(\d+)` is the maximal digit run after the maximal whitespace run
  (giving up characters of `\s+` or `\d+` to the neighbouring piece is
  impossible since the character classes are disjoint);
* `.` does not match `'\n'` and, because the text was stripped, `$` can only
  match at the end of the text, so `(.+)$` succeeds exactly when the remainder
  after the maximal whitespace run following the digits is nonempty and
  contains no newline.  (`re.IGNORECASE` has no effect: the pattern contains
  no cased literal.)
`int(match.group(2))` cannot raise on a `\d+` capture, so the `except
ValueError` branch is dead and the parse result is the captured triple with
the category lower-cased. -/
def parseExpenseList (l : List Char) : Option (List Char × Nat × List Char) :=
  let tok := l.takeWhile wordChar
  let r1 := l.dropWhile wordChar
  let ws1 := r1.takeWhile wsChar
  let r2 := r1.dropWhile wsChar
  let num := r2.takeWhile Char.isDigit
  let r3 := r2.dropWhile Char.isDigit
  let ws2 := r3.takeWhile wsChar
  let desc := r3.dropWhile wsChar
  if tok = [] ∨ ws1 = [] ∨ num = [] ∨ ws2 = [] ∨ desc = [] ∨ '\n' ∈ desc then none
  else some (tok.map Char.toLower, natOfDigits num, desc)

/-- `ExpenseBot.parse_expense_message`: strip the message, match the grammar,
and return `(kategori.lower(), int(jumlah), deskripsi)`, or `none` for the
`(None, None, None)` sentinel. -/
def parse_expense_message (s : String) : Option (String × Nat × String) :=
  match parseExpenseList (pyStrip s.data) with
  | some (t, n, d) => some (String.mk t, n, String.mk d)
  | none => none

/-- One ledger row of the main worksheet, as read back by
`get_all_records` (one `PyVal` cell per header column). -/
structure LedgerRecord where
  tanggal : PyVal
  waktu : PyVal
  kategori : PyVal
  deskripsi : PyVal
  jumlah : PyVal
  userId : PyVal
  status : PyVal
deriving DecidableEq, Repr

/-- The row appended by `add_expense_to_sheet` (`bot.py` lines 276-282):
`[tanggal, waktu, kategori.title(), deskripsi, jumlah, user_id, "✅ Berhasil"]`. -/
def add_expense_row (tanggal waktu kategori deskripsi : String) (jumlah : Int)
    (userId : String) : LedgerRecord where
  tanggal := .vStr tanggal
  waktu := .vStr waktu
  kategori := .vStr (pyTitle kategori)
  deskripsi := .vStr deskripsi
  jumlah := .vInt jumlah
  userId := .vStr userId
  status := .vStr "✅ Berhasil"

/-- The closed category set of `update_monthly_summary`
(`categories = ['makan', 'transport', 'belanja', 'hiburan', 'kesehatan', 'lainnya']`). -/
def categories : List String :=
  ["makan", "transport", "belanja", "hiburan", "kesehatan", "lainnya"]

/-- `monthly_data = {c: 0 for c in categories}`: the initial insertion-ordered
dict, as an association list. -/
def initData : List (String × Int) := categories.map (fun c => (c, 0))

/-- `monthly_data[k] += a` for a key `k` already present in the dict: update
the value in place, keeping insertion order. -/
def bump : List (String × Int) → String → Int → List (String × Int)
  | [], _, _ => []
  | p :: d, k, a => (if p.1 = k then (p.1, p.2 + a) else p) :: bump d k a

/-- The per-record filter of the monthly aggregation loop
(`bot.py` lines 337-343): skip falsy dates (`if not raw_date: continue`),
then `str(raw_date).startswith(current_month_str)`. -/
def recordContributes (month : String) (r : LedgerRecord) : Bool :=
  pyTruthy r.tanggal && pyStartsWith (pyStr r.tanggal) month

/-- One iteration of the aggregation loop of `update_monthly_summary`
(`bot.py` lines 335-351): for a contributing record, lower-case the category
cell, normalize the amount, and add it to the record's own bucket when the
key is in the dict, to `'lainnya'` otherwise.  (No statement of the loop body
can raise, so the inner `except Exception: continue` is dead.) -/
def aggStep (month : String) (d : List (String × Int)) (r : LedgerRecord) :
    List (String × Int) :=
  if recordContributes month r then
    let c := pyLower (pyStr r.kategori)
    let a := to_int r.jumlah
    if c ∈ d.map Prod.fst then bump d c a else bump d "lainnya" a
  else d

/-- The monthly aggregation of `update_monthly_summary`: fold the loop body
over the ledger records starting from the zeroed dict. -/
def aggregateMonth (month : String) (records : List LedgerRecord) :
    List (String × Int) :=
  records.foldl (aggStep month) initData

/-- `total = sum(monthly_data.values())`. -/
def sumValues (d : List (String × Int)) : Int :=
  d.foldl (fun s p => s + p.2) 0

/-- Dict lookup `d[k]`, with default 0 for an absent key (the aggregation dict
always has all six keys, so the default is never taken there). -/
def lookupD (d : List (String × Int)) (k : String) : Int :=
  match d.find? (fun p => p.1 == k) with
  | some p => p.2
  | none => 0

/-- One row of the summary worksheet, as read back / written by
`update_monthly_summary` (header `["📅 Bulan-Tahun", "🍽️ Makan", "🚗 Transport",
"🛒 Belanja", "🎮 Hiburan", "💊 Kesehatan", "📦 Lainnya", "💰 Total"]`). -/
structure SummaryRow where
  bulanTahun : PyVal
  makan : PyVal
  transport : PyVal
  belanja : PyVal
  hiburan : PyVal
  kesehatan : PyVal
  lainnya : PyVal
  total : PyVal
deriving DecidableEq, Repr

/-- The `row_data` written by `update_monthly_summary` (`bot.py` lines 364-373)
for period label `name` and aggregation dict `d`. -/
def mkSummaryRow (name : String) (d : List (String × Int)) : SummaryRow where
  bulanTahun := .vStr name
  makan := .vInt (lookupD d "makan")
  transport := .vInt (lookupD d "transport")
  belanja := .vInt (lookupD d "belanja")
  hiburan := .vInt (lookupD d "hiburan")
  kesehatan := .vInt (lookupD d "kesehatan")
  lainnya := .vInt (lookupD d "lainnya")
  total := .vInt (sumValues d)

/-- The summary upsert of `update_monthly_summary` (`bot.py` lines 356-381):
scan the stored rows for the first row whose `'📅 Bulan-Tahun'` cell equals
`current_month_name`; overwrite that row cell by cell if found, otherwise
append the new row after all existing rows.  (The source computes the first
matching sheet index with a linear scan and then updates that row in place;
this recursion performs the same replace-first-match-else-append.) -/
def upsertSummary (name : String) (d : List (String × Int)) :
    List SummaryRow → List SummaryRow
  | [] => [mkSummaryRow name d]
  | r :: rs =>
      if pyEqStr r.bulanTahun name then mkSummaryRow name d :: rs
      else r :: upsertSummary name d rs

/-- The filter of `get_today_summary` (`bot.py` lines 423-426):
`str(record[H_TANGGAL]) == today and str(record[H_USER_ID]) == str(user_id)`. -/
def todayExpenses (today uid : String) (records : List LedgerRecord) :
    List LedgerRecord :=
  records.filter (fun r => pyStr r.tanggal == today && pyStr r.userId == uid)

/-- `categories_today[cat] = categories_today.get(cat, 0) + amount`: dict
accumulation that appends unseen keys in first-seen order. -/
def dictBump (d : List (String × Int)) (k : String) (a : Int) :
    List (String × Int) :=
  if k ∈ d.map Prod.fst then
    d.map (fun p => if p.1 = k then (p.1, p.2 + a) else p)
  else d ++ [(k, a)]

/-- The per-category grouping of the daily view (`bot.py` lines 440-444):
keys are the records' own lower-cased category cells — there is no folding
into `'lainnya'` here. -/
def dailyCategories (expenses : List LedgerRecord) : List (String × Int) :=
  expenses.foldl (fun d r => dictBump d (pyLower (pyStr r.kategori)) (to_int r.jumlah)) []

/-- `daily_average = total_monthly / current_day if current_day > 0 else 0`
(`bot.py` line 486), with Python's true division idealized over `Rat`. -/
def daily_average (total_monthly : Int) (current_day : Nat) : Rat :=
  if current_day > 0 then (total_monthly : Rat) / (current_day : Rat) else 0

/-! ### Character-class and case-mapping facts -/

theorem wsChar_elim {c : Char} (h : wsChar c = true) :
    c = ' ' ∨ c = '\t' ∨ c = '\r' ∨ c = '\n' := by
  have h' : ((c = ' ' ∨ c = '\t') ∨ c = '\r') ∨ c = '\n' := by
    simpa [wsChar, Char.isWhitespace] using h
  tauto

theorem wordChar_of_ws {c : Char} (h : wsChar c = true) : wordChar c = false := by
  rcases wsChar_elim h with rfl | rfl | rfl | rfl <;> decide

theorem digit_of_ws {c : Char} (h : wsChar c = true) : c.isDigit = false := by
  rcases wsChar_elim h with rfl | rfl | rfl | rfl <;> decide

theorem ws_of_digit {c : Char} (h : c.isDigit = true) : wsChar c = false := by
  cases hw : wsChar c with
  | false => rfl
  | true => rw [digit_of_ws hw] at h; cases h

theorem char_toNat_ofNat {n : Nat} (h : n.isValidChar) : (Char.ofNat n).toNat = n := by
  rw [Char.ofNat, dif_pos h]; rfl

theorem toLower_toUpper (c : Char) : c.toUpper.toLower = c.toLower := by
  by_cases h : c.toNat ≥ 97 ∧ c.toNat ≤ 122
  · have h1 : c.toUpper = Char.ofNat (c.toNat - 32) := by
      unfold Char.toUpper; rw [if_pos h]
    have hv : (c.toNat - 32).isValidChar := Or.inl (by omega)
    have h2 : (Char.ofNat (c.toNat - 32)).toLower = Char.ofNat (c.toNat - 32 + 32) := by
      unfold Char.toLower; rw [char_toNat_ofNat hv, if_pos (by omega)]
    have h3 : c.toLower = c := by
      unfold Char.toLower; rw [if_neg (by omega)]
    rw [h1, h2, h3]
    have h4 : c.toNat - 32 + 32 = c.toNat := by omega
    rw [h4, Char.ofNat_toNat]
  · have h1 : c.toUpper = c := by unfold Char.toUpper; rw [if_neg h]
    rw [h1]

theorem toLower_toLower (c : Char) : c.toLower.toLower = c.toLower := by
  by_cases h : c.toNat ≥ 65 ∧ c.toNat ≤ 90
  · have h1 : c.toLower = Char.ofNat (c.toNat + 32) := by
      unfold Char.toLower; rw [if_pos h]
    have hv : (c.toNat + 32).isValidChar := Or.inl (by omega)
    have h2 : (Char.ofNat (c.toNat + 32)).toLower = Char.ofNat (c.toNat + 32) := by
      unfold Char.toLower; rw [char_toNat_ofNat hv, if_neg (by omega)]
    rw [h1, h2]
  · have h1 : c.toLower = c := by unfold Char.toLower; rw [if_neg h]
    rw [h1, h1]

theorem pyTitleAux_map_toLower (b : Bool) (l : List Char) :
    (pyTitleAux b l).map Char.toLower = l.map Char.toLower := by
  induction l generalizing b with
  | nil => rfl
  | cons c rest ih =>
      by_cases h : c.isAlpha = true
      · cases b <;>
          simp [pyTitleAux, h, ih, toLower_toUpper, toLower_toLower]
      · simp [pyTitleAux, h, ih]

/-- Lower-casing erases title-casing: `cat.title().lower() == cat.lower()`. -/
theorem pyLower_pyTitle (s : String) : pyLower (pyTitle s) = pyLower s :=
  congrArg String.mk (pyTitleAux_map_toLower false s.data)

/-! ### List facts about stripping, munching and prefix tests -/

theorem mem_of_mem_dropWhile {p : Char → Bool} :
    ∀ {l : List Char} {x : Char}, x ∈ l.dropWhile p → x ∈ l := by
  intro l
  induction l with
  | nil => intro x h; rw [List.dropWhile_nil] at h; exact h
  | cons a as ih =>
      intro x h
      rw [List.dropWhile_cons] at h
      split at h
      · exact List.mem_cons_of_mem _ (ih h)
      · exact h

theorem mem_pyStrip {x : Char} {l : List Char} (h : x ∈ pyStrip l) : x ∈ l := by
  unfold pyStrip at h
  rw [List.mem_reverse] at h
  have h1 := mem_of_mem_dropWhile h
  rw [List.mem_reverse] at h1
  exact mem_of_mem_dropWhile h1

theorem isPrefixOf_length_le :
    ∀ (l₁ l₂ : List Char), l₁.isPrefixOf l₂ = true → l₁.length ≤ l₂.length
  | [], _, _ => Nat.zero_le _
  | a :: as, [], h => by simp [List.isPrefixOf] at h
  | a :: as, b :: bs, h => by
      simp only [List.isPrefixOf, Bool.and_eq_true] at h
      simpa using isPrefixOf_length_le as bs h.2

/-- A seven-character target month label is never a prefix of a string of at
most five characters (the `str()` images of all falsy cell values). -/
theorem short_not_startsWith {s m : String} (h7 : m.length = 7) (hs : s.length ≤ 5) :
    pyStartsWith s m = false := by
  cases h : pyStartsWith s m with
  | false => rfl
  | true =>
      have := isPrefixOf_length_le m.data s.data h
      have hm : m.data.length = 7 := h7
      have hs' : s.data.length ≤ 5 := hs
      omega

/-- Maximal munch over a concatenation: if every element of `a` passes `p` and
the head of `b` (when present) fails `p`, then `takeWhile`/`dropWhile` split
`a ++ b` exactly at the boundary. -/
theorem munch {p : Char → Bool} {a b : List Char}
    (ha : ∀ x ∈ a, p x = true) (hb : ∀ x ∈ b.head?, p x = false) :
    (a ++ b).takeWhile p = a ∧ (a ++ b).dropWhile p = b := by
  cases b with
  | nil =>
      constructor
      · rw [List.takeWhile_append_of_pos ha]; simp
      · rw [List.dropWhile_append_of_pos ha]; rfl
  | cons y t =>
      have hy : p y = false := hb y (by simp)
      constructor
      · rw [List.takeWhile_append_of_pos ha,
            List.takeWhile_cons_of_neg (by simp [hy])]
        simp
      · rw [List.dropWhile_append_of_pos ha,
            List.dropWhile_cons_of_neg (by simp [hy])]

/-- `parseExpenseList` with its local names expanded (definitional). -/
theorem parseExpenseList_def (l : List Char) :
    parseExpenseList l =
      if l.takeWhile wordChar = [] ∨
         (l.dropWhile wordChar).takeWhile wsChar = [] ∨
         ((l.dropWhile wordChar).dropWhile wsChar).takeWhile Char.isDigit = [] ∨
         (((l.dropWhile wordChar).dropWhile wsChar).dropWhile Char.isDigit).takeWhile wsChar = [] ∨
         (((l.dropWhile wordChar).dropWhile wsChar).dropWhile Char.isDigit).dropWhile wsChar = [] ∨
         '\n' ∈ (((l.dropWhile wordChar).dropWhile wsChar).dropWhile Char.isDigit).dropWhile wsChar
      then none
      else some ((l.takeWhile wordChar).map Char.toLower,
        natOfDigits (((l.dropWhile wordChar).dropWhile wsChar).takeWhile Char.isDigit),
        (((l.dropWhile wordChar).dropWhile wsChar).dropWhile Char.isDigit).dropWhile wsChar) :=
  rfl

/-- Soundness of the matcher on an explicit grammar decomposition: a list of
the shape `⟨word-run⟩⟨ws-run⟩⟨digit-run⟩⟨ws-run⟩⟨desc⟩`, with a description
that is nonempty, does not begin with whitespace and contains no newline,
parses to the captured triple. -/
theorem parseExpenseList_eq (tok ws1 num ws2 desc : List Char)
    (htok : tok ≠ []) (htokall : ∀ c ∈ tok, wordChar c = true)
    (hws1 : ws1 ≠ []) (hws1all : ∀ c ∈ ws1, wsChar c = true)
    (hnum : num ≠ []) (hnumall : ∀ c ∈ num, c.isDigit = true)
    (hws2 : ws2 ≠ []) (hws2all : ∀ c ∈ ws2, wsChar c = true)
    (hdesc : desc ≠ []) (hdh : ∀ x ∈ desc.head?, wsChar x = false)
    (hnl : '\n' ∉ desc) :
    parseExpenseList (tok ++ (ws1 ++ (num ++ (ws2 ++ desc)))) =
      some (tok.map Char.toLower, natOfDigits num, desc) := by
  obtain ⟨w1, ws1t, rfl⟩ := List.exists_cons_of_ne_nil hws1
  obtain ⟨n1, numt, rfl⟩ := List.exists_cons_of_ne_nil hnum
  obtain ⟨v2, ws2t, rfl⟩ := List.exists_cons_of_ne_nil hws2
  have hw1 : wsChar w1 = true := hws1all w1 (List.mem_cons_self _ _)
  have hn1 : n1.isDigit = true := hnumall n1 (List.mem_cons_self _ _)
  have hv2 : wsChar v2 = true := hws2all v2 (List.mem_cons_self _ _)
  have e1 := munch (a := tok) (b := (w1 :: ws1t) ++ ((n1 :: numt) ++ ((v2 :: ws2t) ++ desc)))
    htokall (by intro x hx; simp at hx; subst hx; exact wordChar_of_ws hw1)
  have e2 := munch (a := w1 :: ws1t) (b := (n1 :: numt) ++ ((v2 :: ws2t) ++ desc))
    hws1all (by intro x hx; simp at hx; subst hx; exact ws_of_digit hn1)
  have e3 := munch (a := n1 :: numt) (b := (v2 :: ws2t) ++ desc)
    hnumall (by intro x hx; simp at hx; subst hx; exact digit_of_ws hv2)
  have e4 := munch (a := v2 :: ws2t) (b := desc) hws2all hdh
  rw [parseExpenseList_def, e1.1, e1.2, e2.1, e2.2, e3.1, e3.2, e4.1, e4.2,
    if_neg (by simp [htok, hdesc, hnl])]

/-- Completeness of the matcher: a successful parse exhibits the grammar
decomposition of the input. -/
theorem parseExpenseList_some (l tokc : List Char) (n : Nat) (d : List Char)
    (h : parseExpenseList l = some (tokc, n, d)) :
    ∃ tok ws1 num ws2,
      l = tok ++ (ws1 ++ (num ++ (ws2 ++ d))) ∧
      tok ≠ [] ∧ (∀ x ∈ tok, wordChar x = true) ∧
      ws1 ≠ [] ∧ (∀ x ∈ ws1, wsChar x = true) ∧
      num ≠ [] ∧ (∀ x ∈ num, x.isDigit = true) ∧
      ws2 ≠ [] ∧ (∀ x ∈ ws2, wsChar x = true) ∧
      d ≠ [] ∧ '\n' ∉ d ∧
      tokc = tok.map Char.toLower ∧ n = natOfDigits num := by
  rw [parseExpenseList_def] at h
  split at h
  · exact absurd h (by simp)
  · rename_i hcond
    push_neg at hcond
    obtain ⟨h1, h2, h3, h4, h5, h6⟩ := hcond
    obtain ⟨rfl, rfl, rfl⟩ : tokc = (l.takeWhile wordChar).map Char.toLower ∧
        n = natOfDigits (((l.dropWhile wordChar).dropWhile wsChar).takeWhile Char.isDigit) ∧
        d = (((l.dropWhile wordChar).dropWhile wsChar).dropWhile Char.isDigit).dropWhile wsChar := by
      have := Option.some.inj h
      exact ⟨congrArg (fun p => p.1) this.symm, congrArg (fun p => p.2.1) this.symm,
        congrArg (fun p => p.2.2) this.symm⟩
    refine ⟨l.takeWhile wordChar,
      (l.dropWhile wordChar).takeWhile wsChar,
      ((l.dropWhile wordChar).dropWhile wsChar).takeWhile Char.isDigit,
      (((l.dropWhile wordChar).dropWhile wsChar).dropWhile Char.isDigit).takeWhile wsChar,
      ?_, h1, fun x hx => List.mem_takeWhile_imp hx,
      h2, fun x hx => List.mem_takeWhile_imp hx,
      h3, fun x hx => List.mem_takeWhile_imp hx,
      h4, fun x hx => List.mem_takeWhile_imp hx,
      h5, h6, rfl, rfl⟩
    conv_lhs => rw [← List.takeWhile_append_dropWhile (p := wordChar) (l := l)]
    congr 1
    conv_lhs => rw [← List.takeWhile_append_dropWhile (p := wsChar) (l := l.dropWhile wordChar)]
    congr 1
    conv_lhs => rw [← List.takeWhile_append_dropWhile (p := Char.isDigit)
      (l := (l.dropWhile wordChar).dropWhile wsChar)]
    congr 1
    conv_lhs => rw [← List.takeWhile_append_dropWhile (p := wsChar)
      (l := ((l.dropWhile wordChar).dropWhile wsChar).dropWhile Char.isDigit)]

/-! ### Aggregation-dict facts -/

theorem bump_keys (d : List (String × Int)) (k : String) (a : Int) :
    (bump d k a).map Prod.fst = d.map Prod.fst := by
  induction d with
  | nil => rfl
  | cons p t ih => by_cases h : p.1 = k <;> simp [bump, h, ih]

theorem bump_comm (d : List (String × Int)) (k1 k2 : String) (a1 a2 : Int) :
    bump (bump d k1 a1) k2 a2 = bump (bump d k2 a2) k1 a1 := by
  induction d with
  | nil => rfl
  | cons p t ih =>
      by_cases h1 : p.1 = k1
      · by_cases h2 : p.1 = k2
        · have hk : k1 = k2 := h1.symm.trans h2
          subst hk
          simp [bump, h1, ih, add_right_comm]
        · have hk : ¬k1 = k2 := fun he => h2 (h1.trans he)
          simp [bump, h1, h2, hk, ih]
      · by_cases h2 : p.1 = k2
        · have hk : ¬k2 = k1 := fun he => h1 (h2.trans he)
          simp [bump, h1, h2, hk, ih]
        · simp [bump, h1, h2, ih]

theorem aggStep_keys (m : String) (d : List (String × Int)) (r : LedgerRecord) :
    (aggStep m d r).map Prod.fst = d.map Prod.fst := by
  simp only [aggStep]
  split
  · split <;> apply bump_keys
  · rfl

theorem aggStep_of_neg {m : String} {r : LedgerRecord}
    (h : recordContributes m r = false) (d : List (String × Int)) :
    aggStep m d r = d := by
  simp [aggStep, h]

theorem aggStep_of_pos {m : String} {r : LedgerRecord}
    (h : recordContributes m r = true) (d : List (String × Int)) :
    aggStep m d r =
      if pyLower (pyStr r.kategori) ∈ d.map Prod.fst
      then bump d (pyLower (pyStr r.kategori)) (to_int r.jumlah)
      else bump d "lainnya" (to_int r.jumlah) := by
  simp [aggStep, h]

theorem aggStep_comm (m : String) (d : List (String × Int)) (r1 r2 : LedgerRecord) :
    aggStep m (aggStep m d r1) r2 = aggStep m (aggStep m d r2) r1 := by
  cases hc1 : recordContributes m r1 with
  | false => simp [aggStep_of_neg hc1]
  | true =>
      cases hc2 : recordContributes m r2 with
      | false => simp [aggStep_of_neg hc2]
      | true =>
          simp only [aggStep_of_pos hc1, aggStep_of_pos hc2]
          by_cases h1 : pyLower (pyStr r1.kategori) ∈ d.map Prod.fst <;>
            by_cases h2 : pyLower (pyStr r2.kategori) ∈ d.map Prod.fst <;>
              simp [h1, h2, bump_keys, bump_comm]

theorem foldl_aggStep_keys (m : String) (rs : List LedgerRecord) :
    ∀ d : List (String × Int),
      (rs.foldl (aggStep m) d).map Prod.fst = d.map Prod.fst := by
  induction rs with
  | nil => intro d; rfl
  | cons r t ih => intro d; rw [List.foldl_cons, ih, aggStep_keys]

theorem initData_keys : initData.map Prod.fst = categories := rfl

/-- The aggregation dict always keeps exactly the six fixed category keys, in
order. -/
theorem aggregateMonth_keys (m : String) (rs : List LedgerRecord) :
    (aggregateMonth m rs).map Prod.fst = categories := by
  rw [aggregateMonth, foldl_aggStep_keys, initData_keys]

theorem foldl_aggStep_perm (m : String) {l1 l2 : List LedgerRecord}
    (h : l1.Perm l2) : ∀ d, l1.foldl (aggStep m) d = l2.foldl (aggStep m) d := by
  induction h with
  | nil => intro d; rfl
  | cons x h ih => intro d; simp only [List.foldl_cons]; exact ih _
  | swap x y t => intro d; simp only [List.foldl_cons, aggStep_comm]
  | trans h1 h2 ih1 ih2 => intro d; rw [ih1, ih2]

/-- Any dict whose key list is exactly `categories` sums to its six lookups. -/
theorem sumValues_eq_lookups (d : List (String × Int))
    (h : d.map Prod.fst = categories) :
    sumValues d = lookupD d "makan" + lookupD d "transport" + lookupD d "belanja" +
      lookupD d "hiburan" + lookupD d "kesehatan" + lookupD d "lainnya" := by
  rcases d with _ | ⟨⟨k1, v1⟩, d⟩; · simp [categories] at h
  rcases d with _ | ⟨⟨k2, v2⟩, d⟩; · simp [categories] at h
  rcases d with _ | ⟨⟨k3, v3⟩, d⟩; · simp [categories] at h
  rcases d with _ | ⟨⟨k4, v4⟩, d⟩; · simp [categories] at h
  rcases d with _ | ⟨⟨k5, v5⟩, d⟩; · simp [categories] at h
  rcases d with _ | ⟨⟨k6, v6⟩, d⟩; · simp [categories] at h
  simp only [categories, List.map_cons, List.cons.injEq] at h
  obtain ⟨rfl, rfl, rfl, rfl, rfl, rfl, hnil⟩ := h
  obtain rfl : d = [] := List.map_eq_nil_iff.mp hnil
  simp [sumValues, lookupD, List.find?]

/-! ### Summary-upsert facts -/

/-- The freshly written row matches its own period label. -/
theorem upsert_match (name : String) (d : List (String × Int)) :
    pyEqStr (mkSummaryRow name d).bulanTahun name = true := by
  simp [mkSummaryRow, pyEqStr]

/-- The scan-and-update of `update_monthly_summary`, described through
`findIdx`/`set`: overwrite the first row whose label cell equals the target
label, else append one new row. -/
theorem upsertSummary_eq (name : String) (d : List (String × Int))
    (rows : List SummaryRow) :
    upsertSummary name d rows =
      if ∃ r ∈ rows, pyEqStr r.bulanTahun name = true
      then rows.set (rows.findIdx (fun r => pyEqStr r.bulanTahun name))
        (mkSummaryRow name d)
      else rows ++ [mkSummaryRow name d] := by
  induction rows with
  | nil => simp [upsertSummary]
  | cons r rs ih =>
      by_cases h : pyEqStr r.bulanTahun name = true
      · rw [if_pos ⟨r, List.mem_cons_self _ _, h⟩]
        simp [upsertSummary, h, List.findIdx_cons]
      · have hcons : (∃ x ∈ r :: rs, pyEqStr x.bulanTahun name = true) ↔
            ∃ x ∈ rs, pyEqStr x.bulanTahun name = true := by
          constructor
          · rintro ⟨x, hx, hpx⟩
            rcases List.mem_cons.mp hx with rfl | hx'
            · exact absurd hpx h
            · exact ⟨x, hx', hpx⟩
          · rintro ⟨x, hx, hpx⟩
            exact ⟨x, List.mem_cons_of_mem _ hx, hpx⟩
        simp only [upsertSummary, if_neg h, ih]
        by_cases hrs : ∃ x ∈ rs, pyEqStr x.bulanTahun name = true
        · rw [if_pos hrs, if_pos (hcons.mpr hrs)]
          simp [List.findIdx_cons, h]
        · rw [if_neg hrs, if_neg (fun hc => hrs (hcons.mp hc))]
          simp

theorem upsertSummary_length (name : String) (d : List (String × Int))
    (rows : List SummaryRow) :
    (upsertSummary name d rows).length =
      if ∃ r ∈ rows, pyEqStr r.bulanTahun name = true
      then rows.length else rows.length + 1 := by
  rw [upsertSummary_eq]
  split <;> simp

theorem upsertSummary_idem (name : String) (d : List (String × Int)) :
    ∀ rows : List SummaryRow,
      upsertSummary name d (upsertSummary name d rows) = upsertSummary name d rows
  | [] => by simp [upsertSummary, upsert_match]
  | r :: rs => by
      by_cases h : pyEqStr r.bulanTahun name = true
      · simp [upsertSummary, h, upsert_match]
      · simp [upsertSummary, h, upsertSummary_idem name d rs]

theorem upsertSummary_countP (name : String) (d : List (String × Int)) :
    ∀ rows : List SummaryRow,
      (upsertSummary name d rows).countP (fun r => pyEqStr r.bulanTahun name) =
        max 1 (rows.countP (fun r => pyEqStr r.bulanTahun name))
  | [] => by simp [upsertSummary, upsert_match]
  | r :: rs => by
      by_cases h : pyEqStr r.bulanTahun name = true
      · simp [upsertSummary, h, upsert_match, List.countP_cons]
      · simp [upsertSummary, h, List.countP_cons,
          upsertSummary_countP name d rs]

/-! ### Claim theorems -/

/-- C1: the summary upsert overwrites the first row whose period-label cell
equals the target label in place (appending nothing), appends exactly one new
row when no row matches, is idempotent (a second upsert with the same
aggregate changes nothing), and leaves exactly one row carrying the target
label when at most one was present before (duplicates beyond the first are
left untouched, so the matching-row count is `max 1` of the previous count). -/
theorem C1_summary_upsert (name : String) (d : List (String × Int))
    (rows : List SummaryRow) :
    upsertSummary name d rows =
      (if ∃ r ∈ rows, pyEqStr r.bulanTahun name = true
       then rows.set (rows.findIdx (fun r => pyEqStr r.bulanTahun name))
         (mkSummaryRow name d)
       else rows ++ [mkSummaryRow name d])
    ∧ (upsertSummary name d rows).length =
        (if ∃ r ∈ rows, pyEqStr r.bulanTahun name = true
         then rows.length else rows.length + 1)
    ∧ upsertSummary name d (upsertSummary name d rows) = upsertSummary name d rows
    ∧ (upsertSummary name d rows).countP (fun r => pyEqStr r.bulanTahun name) =
        max 1 (rows.countP (fun r => pyEqStr r.bulanTahun name)) :=
  ⟨upsertSummary_eq name d rows, upsertSummary_length name d rows,
    upsertSummary_idem name d rows, upsertSummary_countP name d rows⟩

/-- C4: for every record set and month filter, the aggregation dict carries
exactly the six fixed category keys, and its stored grand total (the sum of
the dict's values) equals the sum of the six per-category totals. -/
theorem C4_total_invariant (month : String) (records : List LedgerRecord) :
    (aggregateMonth month records).map Prod.fst = categories
    ∧ sumValues (aggregateMonth month records) =
        lookupD (aggregateMonth month records) "makan" +
        lookupD (aggregateMonth month records) "transport" +
        lookupD (aggregateMonth month records) "belanja" +
        lookupD (aggregateMonth month records) "hiburan" +
        lookupD (aggregateMonth month records) "kesehatan" +
        lookupD (aggregateMonth month records) "lainnya" :=
  ⟨aggregateMonth_keys month records,
    sumValues_eq_lookups _ (aggregateMonth_keys month records)⟩

/-- C5: the amount normalizer is total by construction (it is a Lean function
into `Int` over all modelled cell values) and returns 0 on every input from
which no decimal digit can be extracted — in particular on any digit-free
string (however many minus signs or other characters it contains), on `None`,
on the empty string and on a lone minus sign. -/
theorem C5_to_int_total :
    (∀ s : String, (∀ c ∈ s.data, c.isDigit = false) → to_int (.vStr s) = 0)
    ∧ to_int .vNone = 0
    ∧ to_int (.vStr "") = 0
    ∧ to_int (.vStr "-") = 0 := by
  refine ⟨?_, by decide, by decide, by decide⟩
  intro s hnd
  show strPathToInt s = 0
  simp only [strPathToInt]
  set t := cleanAmount (String.mk (pyStrip s.data)) with ht
  have hall : ∀ c ∈ t.data, c = '-' := by
    intro c hc
    rw [ht] at hc
    have hmf : c ∈ (pyStrip s.data).filter (fun c => c.isDigit || c = '-') := hc
    obtain ⟨hmem, hpass⟩ := List.mem_filter.mp hmf
    have hdig : c.isDigit = false := hnd c (mem_pyStrip hmem)
    simpa [hdig] using hpass
  rcases htd : t.data with _ | ⟨c0, rest⟩
  · have h0 : t = "" := String.ext (by simp [htd])
    rw [if_pos (Or.inl h0)]
  · have hc0 : c0 = '-' := hall c0 (by rw [htd]; exact List.mem_cons_self _ _)
    subst hc0
    rcases rest with _ | ⟨c1, rest1⟩
    · have h1 : t = "-" := String.ext (by simp [htd])
      rw [if_pos (Or.inr h1)]
    · have hne : ¬(t = "" ∨ t = "-") := by
        intro hor
        rcases hor with h | h <;> rw [h] at htd <;> simp at htd
      rw [if_neg hne]
      have hc1 : c1 = '-' := hall c1 (by rw [htd]; simp)
      subst hc1
      simp [pyParseInt]

/-- Witness for C5 at a concrete digit-free string. -/
theorem C5_to_int_total_witness : to_int (.vStr "Rp --- x") = 0 :=
  C5_to_int_total.1 "Rp --- x" (by decide)

/-- C6: the monthly aggregation is a function of the multiset of ledger
records — permuting the input records leaves the category-to-total dict
(hence also its grand total) unchanged. -/
theorem C6_order_independent (month : String) (l1 l2 : List LedgerRecord)
    (h : l1.Perm l2) : aggregateMonth month l1 = aggregateMonth month l2 :=
  foldl_aggStep_perm month h initData

/-- Witness for C6 on a concrete two-record swap. -/
theorem C6_order_independent_witness :
    aggregateMonth "2025-08"
      [add_expense_row "2025-08-01" "08:00:00" "makan" "nasi" 25000 "7",
       add_expense_row "2025-08-02" "09:00:00" "transport" "ojek" 10000 "7"] =
    aggregateMonth "2025-08"
      [add_expense_row "2025-08-02" "09:00:00" "transport" "ojek" 10000 "7",
       add_expense_row "2025-08-01" "08:00:00" "makan" "nasi" 25000 "7"] :=
  C6_order_independent "2025-08" _ _
    (List.Perm.swap (add_expense_row "2025-08-02" "09:00:00" "transport" "ojek" 10000 "7")
      (add_expense_row "2025-08-01" "08:00:00" "makan" "nasi" 25000 "7") [])

/-- C7: period filtering is purely textual.  For any seven-character month
label (the shape `strftime("%Y-%m")` always produces), a record enters the
monthly aggregate exactly when the `str()` of its date cell starts with the
label (the code's extra falsy-date guard never changes this, because every
falsy cell prints as at most five characters); and a record enters the daily
view exactly when the `str()` of its date cell equals the target day and the
`str()` of its user-id cell equals the requesting user.  Both filters are
total functions — malformed cells are silently excluded, never an error. -/
theorem C7_period_filter :
    (∀ (month : String) (r : LedgerRecord), month.length = 7 →
        recordContributes month r = pyStartsWith (pyStr r.tanggal) month)
    ∧ (∀ (today uid : String) (records : List LedgerRecord) (r : LedgerRecord),
        r ∈ todayExpenses today uid records ↔
          r ∈ records ∧ pyStr r.tanggal = today ∧ pyStr r.userId = uid) := by
  constructor
  · intro month r h7
    cases htg : r.tanggal with
    | vInt n =>
        by_cases hn : n = 0
        · subst hn
          have hsw : pyStartsWith (pyStr (.vInt 0)) month = false :=
            short_not_startsWith h7 (by decide)
          simp [recordContributes, pyTruthy, htg, hsw]
        · simp [recordContributes, pyTruthy, htg, hn]
    | vFloat q =>
        by_cases hq : q = 0
        · subst hq
          have hsw : pyStartsWith (pyStr (.vFloat 0)) month = false :=
            short_not_startsWith h7 (by decide)
          simp [recordContributes, pyTruthy, htg, hsw]
        · simp [recordContributes, pyTruthy, htg, hq]
    | vBool b =>
        cases b with
        | true => simp [recordContributes, pyTruthy, htg]
        | false =>
            have hsw : pyStartsWith (pyStr (.vBool false)) month = false :=
              short_not_startsWith h7 (by decide)
            simp [recordContributes, pyTruthy, htg, hsw]
    | vNone =>
        have hsw : pyStartsWith (pyStr .vNone) month = false :=
          short_not_startsWith h7 (by decide)
        simp [recordContributes, pyTruthy, htg, hsw]
    | vStr s =>
        by_cases hs : s = ""
        · subst hs
          have hsw : pyStartsWith (pyStr (.vStr "")) month = false :=
            short_not_startsWith h7 (by decide)
          simp [recordContributes, pyTruthy, htg, hsw]
        · simp [recordContributes, pyTruthy, htg, hs]
  · intro today uid records r
    simp [todayExpenses, List.mem_filter]

/-- Witness for C7 at a concrete malformed date and month label. -/
theorem C7_period_filter_witness :
    recordContributes "2025-08"
        (add_expense_row "07/08/2025" "00:00:00" "makan" "x" 1 "1") =
      pyStartsWith
        (pyStr (add_expense_row "07/08/2025" "00:00:00" "makan" "x" 1 "1").tanggal)
        "2025-08" :=
  C7_period_filter.1 "2025-08"
    (add_expense_row "07/08/2025" "00:00:00" "makan" "x" 1 "1") (by decide)

/-- C10: booleans are excluded from the numeric fast path of the amount
normalizer, so `True` and `False` are stringified to `"True"`/`"False"`,
cleaned to the empty string, and both normalize to 0 — not to the 1 and 0
that `int(bool)` coercion would give. -/
theorem C10_bool_takes_string_path :
    to_int (.vBool true) = 0 ∧ to_int (.vBool false) = 0 := by
  decide

/-- C2: on every single-line input (no embedded newline) whose stripped text
decomposes as a nonempty word-character token, a whitespace run, a nonempty
digit run, a whitespace run and a nonempty remainder, the parser returns
exactly (token lower-cased, digits as an integer, remainder unchanged); and
conversely every successful parse arises from such a decomposition, so any
input missing a field, with a non-numeric amount token, or otherwise
misordered yields the `(None, None, None)` sentinel. -/
theorem C2_parse_grammar :
    (∀ (s : String) (tok ws1 num ws2 : List Char) (dh : Char) (dt : List Char),
        '\n' ∉ s.data →
        pyStrip s.data = tok ++ (ws1 ++ (num ++ (ws2 ++ dh :: dt))) →
        tok ≠ [] → (∀ c ∈ tok, wordChar c = true) →
        ws1 ≠ [] → (∀ c ∈ ws1, wsChar c = true) →
        num ≠ [] → (∀ c ∈ num, c.isDigit = true) →
        ws2 ≠ [] → (∀ c ∈ ws2, wsChar c = true) →
        wsChar dh = false →
        parse_expense_message s =
          some (String.mk (tok.map Char.toLower), natOfDigits num,
            String.mk (dh :: dt)))
    ∧ (∀ (s c : String) (n : Nat) (d : String),
        parse_expense_message s = some (c, n, d) →
        ∃ tok ws1 num ws2 desc,
          pyStrip s.data = tok ++ (ws1 ++ (num ++ (ws2 ++ desc))) ∧
          tok ≠ [] ∧ (∀ x ∈ tok, wordChar x = true) ∧
          ws1 ≠ [] ∧ (∀ x ∈ ws1, wsChar x = true) ∧
          num ≠ [] ∧ (∀ x ∈ num, x.isDigit = true) ∧
          ws2 ≠ [] ∧ (∀ x ∈ ws2, wsChar x = true) ∧
          desc ≠ [] ∧ '\n' ∉ desc ∧
          c = String.mk (tok.map Char.toLower) ∧ n = natOfDigits num ∧
          d = String.mk desc) := by
  constructor
  · intro s tok ws1 num ws2 dh dt hline hdec htok htokall hws1 hws1all hnum
      hnumall hws2 hws2all hdh
    have hnl : '\n' ∉ dh :: dt := by
      intro hmem
      have hin : '\n' ∈ pyStrip s.data := by
        rw [hdec]; simp [hmem]
      exact hline (mem_pyStrip hin)
    have hres := parseExpenseList_eq tok ws1 num ws2 (dh :: dt) htok htokall
      hws1 hws1all hnum hnumall hws2 hws2all (by simp)
      (by intro x hx; simp at hx; subst hx; exact hdh) hnl
    unfold parse_expense_message
    rw [hdec, hres]
  · intro s c n d h
    unfold parse_expense_message at h
    cases hp : parseExpenseList (pyStrip s.data) with
    | none => rw [hp] at h; exact absurd h (by simp)
    | some t =>
        obtain ⟨tc, nn, dd⟩ := t
        rw [hp] at h
        simp only [Option.some.injEq, Prod.mk.injEq] at h
        obtain ⟨hc, hn, hd⟩ := h
        obtain ⟨tok, ws1, num, ws2, hdec, h1, h2, h3, h4, h5, h6, h7, h8, h9,
          h10, h11, h12⟩ := parseExpenseList_some _ _ _ _ hp
        exact ⟨tok, ws1, num, ws2, dd, hdec, h1, h2, h3, h4, h5, h6, h7, h8,
          h9, h10, hc.symm.trans (congrArg String.mk h11),
          hn.symm.trans h12, hd.symm⟩

/-- Witness for C2 on the spec's own example message. -/
theorem C2_parse_grammar_witness :
    parse_expense_message "makan 25000 nasi goreng" =
      some ("makan", 25000, "nasi goreng") := by
  have h := C2_parse_grammar.1 "makan 25000 nasi goreng"
    "makan".data " ".data "25000".data " ".data 'n' "asi goreng".data
    (by decide) (by decide) (by decide) (by decide) (by decide) (by decide)
    (by decide) (by decide) (by decide) (by decide) (by decide)
  exact h.trans (by decide)

/-- Counterexample to C3 as stated: the record parsed from `"hobi 25000
model kit"` is stored with category cell `"Hobi"`, and in the daily
per-category view its 25000 is keyed under the literal token `"hobi"` — the
view's dict holds no `lainnya` amount at all — while only the persisted
monthly aggregate folds the amount into `lainnya`. -/
theorem C3_daily_not_lainnya_counterexample :
    dailyCategories
        [add_expense_row "2025-08-07" "12:00:00" "hobi" "model kit" 25000 "99"] =
      [("hobi", 25000)]
    ∧ lookupD (dailyCategories
        [add_expense_row "2025-08-07" "12:00:00" "hobi" "model kit" 25000 "99"])
        "lainnya" = 0
    ∧ lookupD (aggregateMonth "2025-08"
        [add_expense_row "2025-08-07" "12:00:00" "hobi" "model kit" 25000 "99"])
        "lainnya" = 25000 := by
  decide

/-- C3 (amended): a parsed expense whose lower-cased category token lies
outside the closed six-category set is stored in the ledger verbatim in
title-cased form; its amount is counted in the `lainnya` bucket of the
persisted monthly aggregate; but the daily per-category view groups the
amount under the record's own lower-cased token, not under `lainnya`. -/
theorem C3_unknown_category (cat tanggal waktu desc uid month : String)
    (jumlah : Int) (hlow : pyLower cat = cat) (hnot : cat ∉ categories)
    (htr : tanggal ≠ "") (hpre : pyStartsWith tanggal month = true) :
    (add_expense_row tanggal waktu cat desc jumlah uid).kategori =
        .vStr (pyTitle cat)
    ∧ lookupD (aggregateMonth month
        [add_expense_row tanggal waktu cat desc jumlah uid]) "lainnya" = jumlah
    ∧ dailyCategories [add_expense_row tanggal waktu cat desc jumlah uid] =
        [(cat, jumlah)] := by
  have hkey : pyLower (pyStr (add_expense_row tanggal waktu cat desc jumlah uid).kategori) = cat := by
    show pyLower (pyStr (.vStr (pyTitle cat))) = cat
    show pyLower (pyTitle cat) = cat
    rw [pyLower_pyTitle, hlow]
  refine ⟨rfl, ?_, ?_⟩
  · have hcontr : recordContributes month
        (add_expense_row tanggal waktu cat desc jumlah uid) = true := by
      simp [recordContributes, add_expense_row, pyStr, pyTruthy, htr, hpre]
    have hmem : cat ∉ initData.map Prod.fst := by
      rw [initData_keys]; exact hnot
    show lookupD (List.foldl (aggStep month) initData
      [add_expense_row tanggal waktu cat desc jumlah uid]) "lainnya" = jumlah
    rw [List.foldl_cons, List.foldl_nil, aggStep_of_pos hcontr, hkey,
      if_neg hmem]
    show lookupD (bump initData "lainnya" jumlah) "lainnya" = jumlah
    simp [initData, categories, bump, lookupD, List.find?]
  · show dictBump [] (pyLower (pyStr
      (add_expense_row tanggal waktu cat desc jumlah uid).kategori))
      (to_int (add_expense_row tanggal waktu cat desc jumlah uid).jumlah) =
        [(cat, jumlah)]
    rw [hkey]
    simp [dictBump, to_int, add_expense_row]

/-- Witness for the amended C3 at the concrete unknown token `"hobi"`. -/
theorem C3_unknown_category_witness :
    (add_expense_row "2025-08-07" "12:00:00" "hobi" "model kit" 25000 "99").kategori =
        .vStr (pyTitle "hobi")
    ∧ lookupD (aggregateMonth "2025-08"
        [add_expense_row "2025-08-07" "12:00:00" "hobi" "model kit" 25000 "99"])
        "lainnya" = 25000
    ∧ dailyCategories
        [add_expense_row "2025-08-07" "12:00:00" "hobi" "model kit" 25000 "99"] =
        [("hobi", 25000)] :=
  C3_unknown_category "hobi" "2025-08-07" "12:00:00" "model kit" "99" "2025-08"
    25000 (by decide) (by decide) (by decide) (by decide)

/-- C8: the monthly view's daily average is the month's total divided by the
current day-of-month (an integer count): multiplying it back by the day
recovers the total exactly, and a total of 60000 on day 3 gives 20000. -/
theorem C8_daily_average :
    daily_average 60000 3 = 20000
    ∧ ∀ (t : Int) (d : Nat), 0 < d →
        daily_average t d * (d : Rat) = (t : Rat) := by
  constructor
  · norm_num [daily_average]
  · intro t d hd
    rw [daily_average, if_pos hd]
    have hdz : (d : Rat) ≠ 0 := Nat.cast_ne_zero.mpr (Nat.pos_iff_ne_zero.mp hd)
    exact div_mul_cancel₀ _ hdz

/-- Witness for C8 at total 60000 on day 3. -/
theorem C8_daily_average_witness :
    0 < 3 ∧ daily_average 60000 3 * ((3 : Nat) : Rat) = ((60000 : Int) : Rat) :=
  ⟨by decide, C8_daily_average.2 60000 3 (by decide)⟩

/-- C9: a message whose first token is all digits still parses — `\w` covers
digits — producing that token as the category; the token is outside the
closed set, so after title-cased storage its amount folds into `lainnya` in
the monthly aggregate. -/
theorem C9_digit_token_parses :
    parse_expense_message "123 456 lunch" = some ("123", 456, "lunch")
    ∧ "123" ∉ categories
    ∧ lookupD (aggregateMonth "2025-08"
        [add_expense_row "2025-08-07" "09:00:00" "123" "lunch" 456 "7"])
        "lainnya" = 456 := by
  decide
